import Mathlib

/-!
Verification of the deck/session engine of the "Relations Démocratiques"
card-drawing application (`src/App.jsx`).

The embedding below translates the data/session logic of the React component
into pure Lean definitions:

* the CSV row handling inside `fetchData`'s `Papa.parse` callback becomes
  `parseRowsAux` / `parseRows` / `fetchData` over an explicit `Row` record
  (papaparse with `header: true` yields, for each row, a string per present
  column and `undefined` for a missing one, hence `Option String` fields;
  JavaScript's `x || ""` on a string-or-undefined value is `Option.getD ""`,
  and `row.category?.trim() || "Autre"` is the `categoryOf` function);
* JavaScript's number-to-string conversion used by the template literal
  `` `${type}-${i}` `` renders the (integer) index in decimal, which is
  embedded as `natToDec`;
* the `useMemo` derivations `effective`, `pool`, `perCategoryTotals`,
  `perCategoryPlayed` become functions of their dependencies; the JavaScript
  `Map` with `get(k) || 0` is modelled as a total function `String → Nat`
  defaulting to `0`;
* the component state touched by `pickCard` / `resetDeck` (`card`,
  `showGuide`, `playedIds`, `hasCompleted`) becomes an explicit `Session`
  record; `Math.floor(Math.random() * available.length)` — always a valid
  index of `available` — is modelled by an arbitrary `r : Nat` reduced
  modulo `available.length`, so each index is hit by exactly one residue
  class of the random input;
* the `useEffect(() => resetDeck(), [mode, selectedCategories])` side effect
  is folded into the state setters: React re-runs the effect exactly when a
  dependency changes, so `setMode` resets the session when the new mode
  differs (React bails out when the value is identical), and
  `setSelectedCategories` always receives a freshly constructed array in
  this component, hence always resets.
-/

namespace RLDM

/-- Decimal digit characters of `n`, most significant first, with an explicit
fuel bound (any fuel above `n` yields the digits; the fuel only makes the
recursion structural, mirroring how Lean core's own `Nat.toDigits` is
written). -/
def toDecCharsFuel : Nat → Nat → List Char
  | 0, _ => []
  | fuel + 1, n =>
    if n < 10 then [Char.ofNat (48 + n)]
    else toDecCharsFuel fuel (n / 10) ++ [Char.ofNat (48 + n % 10)]

/-- Decimal digit characters of `n`, most significant first: the embedding of
JavaScript's decimal rendering of a (nonnegative integer) number. -/
def toDecChars (n : Nat) : List Char :=
  toDecCharsFuel (n + 1) n

/-- Decimal string of `n`, as produced by `` `${i}` `` in JavaScript. -/
def natToDec (n : Nat) : String :=
  ⟨toDecChars n⟩

/-- The id template `` `${type}-${i}` `` of `fetchData`. -/
def mkId (ty : String) (i : Nat) : String :=
  ty ++ "-" ++ natToDec i

/-- One card record as built by `fetchData`; `prompt` holds the
`info / situation` column (stored under the key `info` on info cards and
`situation` on dilemme cards in the source, with identical content). -/
structure Card where
  id : String
  type : String
  category : String
  question : String
  guide : String
  source : String
  prompt : String
deriving DecidableEq, Repr

/-- One raw CSV row as delivered by papaparse with `header: true`: a present
column is a string, a missing one is `undefined`. `infoSituation` is the
column literally named `info / situation`. -/
structure Row where
  type : Option String
  category : Option String
  question : Option String
  guide : Option String
  source : Option String
  infoSituation : Option String
deriving DecidableEq, Repr

/-- JavaScript's `String.prototype.trim`: drop leading and trailing
whitespace characters (embedded structurally over the character list, so it
evaluates in the kernel; `Char.isWhitespace` covers the whitespace characters
occurring in the data: space, tab, carriage return, line feed). -/
def jsTrim (s : String) : String :=
  ⟨((s.data.dropWhile Char.isWhitespace).reverse.dropWhile Char.isWhitespace).reverse⟩

/-- `(row.type || "").trim()`. -/
def rowType (row : Row) : String :=
  jsTrim (row.type.getD "")

/-- `row.category?.trim() || "Autre"`: `undefined` and the empty (or
all-whitespace, hence empty after trim) string both fall back to `"Autre"`. -/
def categoryOf (category : Option String) : String :=
  match category with
  | none => "Autre"
  | some s => if jsTrim s = "" then "Autre" else jsTrim s

/-- The `base` object of `fetchData`, together with the prompt field added
when the row is pushed. -/
def baseCard (i : Nat) (row : Row) : Card :=
  { id := mkId (rowType row) i
    type := rowType row
    category := categoryOf row.category
    question := row.question.getD ""
    guide := row.guide.getD ""
    source := row.source.getD ""
    prompt := row.infoSituation.getD "" }

/-- The `results.data.forEach((row, i) => ...)` loop of `fetchData`: `i` is
the zero-based position in the raw row sequence, rows with a blank trimmed
`type` are skipped, `"info"` rows are pushed onto the `info` list, `"dilemme"`
rows onto the `dilemme` list, and any other type is dropped. -/
def parseRowsAux (i : Nat) : List Row → List Card × List Card
  | [] => ([], [])
  | row :: rest =>
    let p := parseRowsAux (i + 1) rest
    let t := rowType row
    if t = "" then p
    else if t = "info" then (baseCard i row :: p.1, p.2)
    else if t = "dilemme" then (p.1, baseCard i row :: p.2)
    else p

/-- The whole row loop, started at index `0`. -/
def parseRows (rows : List Row) : List Card × List Card :=
  parseRowsAux 0 rows

/-- The two card lists held in the `cards` state. -/
structure Cards where
  info : List Card
  dilemme : List Card
deriving DecidableEq, Repr

/-- `Array.from(new Set([...info, ...dilemme].map((c) => c.category))).sort()`.
The JavaScript `Set` deduplicates (keeping first occurrences) and `sort()`
orders lexicographically; `List.dedup` keeps last occurrences instead, but
the subsequent sort erases the difference, two sorted duplicate-free lists
with the same members being equal. -/
def allCategories (info dilemme : List Card) : List String :=
  (((info ++ dilemme).map (fun c => c.category)).dedup).mergeSort (· ≤ ·)

/-- The parsing part of `fetchData`: the `cards` catalog and the
`allCategories` list it stores. -/
def fetchData (rows : List Row) : Cards × List String :=
  ((fun p => (⟨p.1, p.2⟩, allCategories p.1 p.2)) (parseRows rows))

/-- The three values the `mode` state ranges over. -/
inductive Mode
  | auto
  | info
  | dilemme
deriving DecidableEq, Repr

/-- The `effective` memo: `mode === "auto"` concatenates info then dilemme,
otherwise `cards[mode]` selects the single list. -/
def effective (cards : Cards) : Mode → List Card
  | Mode.auto => cards.info ++ cards.dilemme
  | Mode.info => cards.info
  | Mode.dilemme => cards.dilemme

/-- The `pool` memo: `selectedCategories.length === 0 ? effective :
effective.filter((c) => selectedCategories.includes(c.category))`. -/
def pool (eff : List Card) (selectedCategories : List String) : List Card :=
  if selectedCategories.length = 0 then eff
  else eff.filter (fun c => decide (c.category ∈ selectedCategories))

/-- `counts.set(c.category, (counts.get(c.category) || 0) + 1)` on a map
modelled as a total function defaulting to `0`. -/
def bump (counts : String → Nat) (cat : String) : String → Nat :=
  fun k => if k = cat then counts cat + 1 else counts k

/-- The `perCategoryTotals` memo: fold the counting loop over `effective`. -/
def perCategoryTotals (eff : List Card) : String → Nat :=
  eff.foldl (fun counts c => bump counts c.category) (fun _ => 0)

/-- The `perCategoryPlayed` memo: same loop, counting only cards whose id is
in `playedIds`. -/
def perCategoryPlayed (eff : List Card) (playedIds : List String) : String → Nat :=
  eff.foldl
    (fun counts c => if c.id ∈ playedIds then bump counts c.category else counts)
    (fun _ => 0)

/-- The component state read and written by `pickCard` / `resetDeck`:
`card`, `showGuide`, `playedIds` (the JavaScript `Set` of ids, modelled by
the list of inserted ids — only membership is ever consulted, and `pickCard`
only inserts ids not yet present), `hasCompleted`. -/
structure Session where
  card : Option Card
  showGuide : Bool
  playedIds : List String
  hasCompleted : Bool
deriving DecidableEq, Repr

/-- The initial session: `card = null`, `showGuide = false`,
`playedIds = new Set()`, `hasCompleted = false`. -/
def initSession : Session :=
  { card := none, showGuide := false, playedIds := [], hasCompleted := false }

/-- `resetDeck`: clears the four session states. -/
def resetDeck (_s : Session) : Session :=
  { card := none, showGuide := false, playedIds := [], hasCompleted := false }

/-- `const available = pool.filter((c) => !playedIds.has(c.id))`. -/
def available (pool : List Card) (s : Session) : List Card :=
  pool.filter (fun c => decide (c.id ∉ s.playedIds))

/-- `pickCard`: on an empty `available` set only `hasCompleted` is touched;
otherwise `available[Math.floor(Math.random() * available.length)]` — the
random index, always in range, is `r % available.length` — becomes the shown
card, `showGuide` is cleared, and the id is inserted into `playedIds`.
`hasCompleted` is not written on a successful pick. -/
def pickCard (r : Nat) (pool : List Card) (s : Session) : Option Card × Session :=
  if h : (available pool s).length = 0 then
    (none, { s with hasCompleted := true })
  else
    let next := (available pool s).get
      ⟨r % (available pool s).length, Nat.mod_lt r (Nat.pos_of_ne_zero h)⟩
    (some next,
      { s with
          card := some next
          showGuide := false
          playedIds := next.id :: s.playedIds })

/-- A sequence of `pickCard` invocations (one per button press), threading the
session state; `rs` supplies the successive random indices. -/
def drawSeq (pool : List Card) : List Nat → Session → List (Option Card) × Session
  | [], s => ([], s)
  | r :: rs, s =>
    ((pickCard r pool s).1 :: (drawSeq pool rs (pickCard r pool s).2).1,
      (drawSeq pool rs (pickCard r pool s).2).2)

/-- The top-level state the session-resetting `useEffect` depends on. -/
structure AppState where
  mode : Mode
  selectedCategories : List String
  session : Session
deriving DecidableEq, Repr

/-- `setMode` together with the `useEffect` on `[mode, selectedCategories]`:
when the new mode equals the old one React bails out and the effect does not
re-run; otherwise the re-render re-runs the effect, which calls `resetDeck`. -/
def setMode (m : Mode) (st : AppState) : AppState :=
  if m = st.mode then st
  else { st with mode := m, session := resetDeck st.session }

/-- `setSelectedCategories` together with the same `useEffect`: every call
site in the component constructs a fresh array, so the dependency always
changes and the effect always calls `resetDeck`. -/
def setSelectedCategories (cats : List String) (st : AppState) : AppState :=
  { st with selectedCategories := cats, session := resetDeck st.session }

/-- `toggleCategory`: remove the category when present, append it when not. -/
def toggleCategory (cat : String) (st : AppState) : AppState :=
  setSelectedCategories
    (if cat ∈ st.selectedCategories then
      st.selectedCategories.filter (fun c => decide (c ≠ cat))
    else st.selectedCategories ++ [cat]) st

/-- A concrete info card, used to instantiate hypotheses of the theorems
below at concrete inputs. -/
def sampleInfo : Card :=
  { id := "info-0", type := "info", category := "A"
    question := "", guide := "", source := "", prompt := "" }

/-- A concrete dilemme card, used likewise. -/
def sampleDilemme : Card :=
  { id := "dilemme-1", type := "dilemme", category := "B"
    question := "", guide := "", source := "", prompt := "" }

/-! ### Helper lemmas on the decimal rendering and ids -/

/-- Evaluate decimal digit characters back to a number (left inverse of
`toDecChars`, so that `natToDec` is injective). -/
def decValAux (acc : Nat) : List Char → Nat
  | [] => acc
  | c :: cs => decValAux (acc * 10 + (c.toNat - 48)) cs

theorem decValAux_nil (acc : Nat) : decValAux acc [] = acc := rfl

theorem decValAux_cons (acc : Nat) (c : Char) (cs : List Char) :
    decValAux acc (c :: cs) = decValAux (acc * 10 + (c.toNat - 48)) cs := rfl

theorem decValAux_append (a : Nat) (xs ys : List Char) :
    decValAux a (xs ++ ys) = decValAux (decValAux a xs) ys := by
  induction xs generalizing a with
  | nil => rfl
  | cons c cs ih =>
    rw [List.cons_append]
    show decValAux (a * 10 + (c.toNat - 48)) (cs ++ ys) =
      decValAux (decValAux (a * 10 + (c.toNat - 48)) cs) ys
    exact ih _

theorem char_ofNat_toNat : ∀ d, d < 10 → (Char.ofNat (48 + d)).toNat = 48 + d := by
  decide

theorem toDecCharsFuel_succ (f n : Nat) :
    toDecCharsFuel (f + 1) n =
      if n < 10 then [Char.ofNat (48 + n)]
      else toDecCharsFuel f (n / 10) ++ [Char.ofNat (48 + n % 10)] := rfl

theorem decValAux_toDecCharsFuel (fuel : Nat) :
    ∀ n, n < fuel → decValAux 0 (toDecCharsFuel fuel n) = n := by
  induction fuel with
  | zero => intro n h; omega
  | succ f ih =>
    intro n h
    rw [toDecCharsFuel_succ]
    by_cases h10 : n < 10
    · rw [if_pos h10, decValAux_cons, decValAux_nil, char_ofNat_toNat n h10]
      omega
    · rw [if_neg h10, decValAux_append, ih (n / 10) (by omega),
        decValAux_cons, decValAux_nil, char_ofNat_toNat (n % 10) (by omega)]
      omega

theorem decValAux_toDecChars (n : Nat) : decValAux 0 (toDecChars n) = n :=
  decValAux_toDecCharsFuel (n + 1) n (by omega)

theorem toDecChars_inj {m n : Nat} (h : toDecChars m = toDecChars n) : m = n := by
  have h2 := congrArg (decValAux 0) h
  rwa [decValAux_toDecChars, decValAux_toDecChars] at h2

theorem mkId_data (t : String) (i : Nat) :
    (mkId t i).data = t.data ++ '-' :: toDecChars i := by
  simp [mkId, natToDec, String.data_append]

theorem mkId_inj_index {t : String} {a b : Nat} (h : mkId t a = mkId t b) :
    a = b := by
  have h2 := congrArg String.data h
  rw [mkId_data, mkId_data] at h2
  exact toDecChars_inj (List.cons.inj (List.append_cancel_left h2)).2

theorem mkId_info_ne_dilemme (a b : Nat) : mkId "info" a ≠ mkId "dilemme" b := by
  intro h
  have h2 := congrArg String.data h
  rw [mkId_data, mkId_data] at h2
  rw [show ("info" : String).data = ['i', 'n', 'f', 'o'] from rfl,
    show ("dilemme" : String).data = ['d', 'i', 'l', 'e', 'm', 'm', 'e'] from rfl] at h2
  simp at h2

theorem available_initSession (p : List Card) : available p initSession = p := by
  simp [available, initSession]

/-! ### Helper lemmas on the row loop -/

theorem parseRowsAux_nil (i : Nat) : parseRowsAux i [] = ([], []) := rfl

theorem parseRowsAux_skip (i : Nat) (row : Row) (rest : List Row)
    (h1 : rowType row ≠ "info") (h2 : rowType row ≠ "dilemme") :
    parseRowsAux i (row :: rest) = parseRowsAux (i + 1) rest := by
  by_cases h0 : rowType row = "" <;> simp [parseRowsAux, h0, h1, h2]

theorem parseRowsAux_info (i : Nat) (row : Row) (rest : List Row)
    (h : rowType row = "info") :
    parseRowsAux i (row :: rest) =
      (baseCard i row :: (parseRowsAux (i + 1) rest).1, (parseRowsAux (i + 1) rest).2) := by
  simp [parseRowsAux, h]

theorem parseRowsAux_dilemme (i : Nat) (row : Row) (rest : List Row)
    (h : rowType row = "dilemme") :
    parseRowsAux i (row :: rest) =
      ((parseRowsAux (i + 1) rest).1, baseCard i row :: (parseRowsAux (i + 1) rest).2) := by
  simp [parseRowsAux, h]

theorem parse_types (i : Nat) (rows : List Row) :
    (∀ c ∈ (parseRowsAux i rows).1, c.type = "info") ∧
    (∀ c ∈ (parseRowsAux i rows).2, c.type = "dilemme") := by
  induction rows generalizing i with
  | nil => simp [parseRowsAux_nil]
  | cons row rest ih =>
    obtain ⟨ih1, ih2⟩ := ih (i + 1)
    by_cases hi : rowType row = "info"
    · rw [parseRowsAux_info i row rest hi]
      refine ⟨?_, ih2⟩
      intro c hc
      rcases List.mem_cons.mp hc with h | h
      · rw [h]; simp [baseCard, hi]
      · exact ih1 c h
    · by_cases hd : rowType row = "dilemme"
      · rw [parseRowsAux_dilemme i row rest hd]
        refine ⟨ih1, ?_⟩
        intro c hc
        rcases List.mem_cons.mp hc with h | h
        · rw [h]; simp [baseCard, hd]
        · exact ih2 c h
      · rw [parseRowsAux_skip i row rest hi hd]
        exact ⟨ih1, ih2⟩

theorem parse_mem (i : Nat) (rows : List Row) :
    (∀ c ∈ (parseRowsAux i rows).1,
      ∃ k row, rows.get? k = some row ∧ rowType row = "info" ∧ c = baseCard (i + k) row) ∧
    (∀ c ∈ (parseRowsAux i rows).2,
      ∃ k row, rows.get? k = some row ∧ rowType row = "dilemme" ∧ c = baseCard (i + k) row) := by
  induction rows generalizing i with
  | nil => simp [parseRowsAux_nil]
  | cons row rest ih =>
    obtain ⟨ih1, ih2⟩ := ih (i + 1)
    have lift1 : ∀ c ∈ (parseRowsAux (i + 1) rest).1,
        ∃ k r, (row :: rest).get? k = some r ∧ rowType r = "info" ∧ c = baseCard (i + k) r := by
      intro c hc
      obtain ⟨k, r, hget, hty, hc'⟩ := ih1 c hc
      refine ⟨k + 1, r, by simpa using hget, hty, ?_⟩
      rw [hc', show i + (k + 1) = i + 1 + k from by omega]
    have lift2 : ∀ c ∈ (parseRowsAux (i + 1) rest).2,
        ∃ k r, (row :: rest).get? k = some r ∧ rowType r = "dilemme" ∧ c = baseCard (i + k) r := by
      intro c hc
      obtain ⟨k, r, hget, hty, hc'⟩ := ih2 c hc
      refine ⟨k + 1, r, by simpa using hget, hty, ?_⟩
      rw [hc', show i + (k + 1) = i + 1 + k from by omega]
    by_cases hi : rowType row = "info"
    · rw [parseRowsAux_info i row rest hi]
      refine ⟨?_, lift2⟩
      intro c hc
      rcases List.mem_cons.mp hc with h | h
      · exact ⟨0, row, rfl, hi, by rw [h, Nat.add_zero]⟩
      · exact lift1 c h
    · by_cases hd : rowType row = "dilemme"
      · rw [parseRowsAux_dilemme i row rest hd]
        refine ⟨lift1, ?_⟩
        intro c hc
        rcases List.mem_cons.mp hc with h | h
        · exact ⟨0, row, rfl, hd, by rw [h, Nat.add_zero]⟩
        · exact lift2 c h
      · rw [parseRowsAux_skip i row rest hi hd]
        exact ⟨lift1, lift2⟩

theorem parse_ids_nodup (i : Nat) (rows : List Row) :
    (∀ s ∈ ((parseRowsAux i rows).1).map (fun c => c.id), ∃ k, s = mkId "info" (i + k)) ∧
    (∀ s ∈ ((parseRowsAux i rows).2).map (fun c => c.id), ∃ k, s = mkId "dilemme" (i + k)) ∧
    (((parseRowsAux i rows).1 ++ (parseRowsAux i rows).2).map (fun c => c.id)).Nodup := by
  induction rows generalizing i with
  | nil => simp [parseRowsAux_nil]
  | cons row rest ih =>
    obtain ⟨ih1, ih2, ih3⟩ := ih (i + 1)
    have lift1 : ∀ s ∈ ((parseRowsAux (i + 1) rest).1).map (fun c => c.id),
        ∃ k, s = mkId "info" (i + k) := by
      intro s hs
      obtain ⟨k, hk⟩ := ih1 s hs
      exact ⟨k + 1, by rw [hk, show i + (k + 1) = i + 1 + k from by omega]⟩
    have lift2 : ∀ s ∈ ((parseRowsAux (i + 1) rest).2).map (fun c => c.id),
        ∃ k, s = mkId "dilemme" (i + k) := by
      intro s hs
      obtain ⟨k, hk⟩ := ih2 s hs
      exact ⟨k + 1, by rw [hk, show i + (k + 1) = i + 1 + k from by omega]⟩
    by_cases hi : rowType row = "info"
    · rw [parseRowsAux_info i row rest hi]
      have hbase : (baseCard i row).id = mkId "info" i := by
        simp [baseCard, hi]
      refine ⟨?_, lift2, ?_⟩
      · intro s hs
        rcases List.mem_map.mp hs with ⟨c, hc, hcid⟩
        rcases List.mem_cons.mp hc with h | h
        · exact ⟨0, by rw [← hcid, h, hbase, Nat.add_zero]⟩
        · exact lift1 s (List.mem_map.mpr ⟨c, h, hcid⟩)
      · rw [List.cons_append, List.map_cons, List.nodup_cons, hbase]
        refine ⟨?_, ih3⟩
        intro hmem
        rw [List.map_append, List.mem_append] at hmem
        rcases hmem with h | h
        · obtain ⟨k, hk⟩ := ih1 _ h
          have := mkId_inj_index hk
          omega
        · obtain ⟨k, hk⟩ := ih2 _ h
          exact mkId_info_ne_dilemme i (i + 1 + k) hk
    · by_cases hd : rowType row = "dilemme"
      · rw [parseRowsAux_dilemme i row rest hd]
        have hbase : (baseCard i row).id = mkId "dilemme" i := by
          simp [baseCard, hd]
        refine ⟨lift1, ?_, ?_⟩
        · intro s hs
          rcases List.mem_map.mp hs with ⟨c, hc, hcid⟩
          rcases List.mem_cons.mp hc with h | h
          · exact ⟨0, by rw [← hcid, h, hbase, Nat.add_zero]⟩
          · exact lift2 s (List.mem_map.mpr ⟨c, h, hcid⟩)
        · rw [List.map_append, List.map_cons, List.nodup_middle, List.nodup_cons, hbase]
          rw [List.map_append] at ih3
          refine ⟨?_, ih3⟩
          intro hmem
          rw [List.mem_append] at hmem
          rcases hmem with h | h
          · obtain ⟨k, hk⟩ := ih1 _ h
            exact mkId_info_ne_dilemme (i + 1 + k) i hk.symm
          · obtain ⟨k, hk⟩ := ih2 _ h
            have := mkId_inj_index hk
            omega
      · rw [parseRowsAux_skip i row rest hi hd]
        exact ⟨lift1, lift2, ih3⟩

/-! ### Helper lemmas on the draw engine -/

theorem mem_available {p : List Card} {s : Session} {c : Card} :
    c ∈ available p s ↔ c ∈ p ∧ c.id ∉ s.playedIds := by
  simp [available]

theorem pickCard_empty (r : Nat) (p : List Card) (s : Session)
    (h : (available p s).length = 0) :
    pickCard r p s = (none, { s with hasCompleted := true }) := by
  rw [pickCard, dif_pos h]

theorem pickCard_pos (r : Nat) (p : List Card) (s : Session)
    (h : ¬(available p s).length = 0) :
    pickCard r p s =
      (some ((available p s).get
          ⟨r % (available p s).length, Nat.mod_lt r (Nat.pos_of_ne_zero h)⟩),
        { s with
            card := some ((available p s).get
              ⟨r % (available p s).length, Nat.mod_lt r (Nat.pos_of_ne_zero h)⟩)
            showGuide := false
            playedIds := ((available p s).get
              ⟨r % (available p s).length, Nat.mod_lt r (Nat.pos_of_ne_zero h)⟩).id ::
                s.playedIds }) := by
  rw [pickCard, dif_neg h]

theorem available_cons_played (p : List Card) (s s2 : Session) (x : Card)
    (h : s2.playedIds = x.id :: s.playedIds) :
    available p s2 = (available p s).filter (fun c => decide (c.id ≠ x.id)) := by
  rw [available, available, List.filter_filter]
  apply List.filter_congr
  intro c _
  by_cases h1 : c.id = x.id <;> by_cases h2 : c.id ∈ s.playedIds <;> simp [h, h1, h2]

theorem length_filter_ne (l : List Card) (x : Card)
    (hn : (l.map (fun c => c.id)).Nodup) (hx : x ∈ l) :
    (l.filter (fun c => decide (c.id ≠ x.id))).length + 1 = l.length := by
  induction l with
  | nil => cases hx
  | cons y t ih =>
    rw [List.map_cons, List.nodup_cons] at hn
    obtain ⟨hy, hn⟩ := hn
    by_cases hyx : y.id = x.id
    · rw [List.filter_cons_of_neg (by simp [hyx])]
      have hsame : t.filter (fun c => decide (c.id ≠ x.id)) = t := by
        apply List.filter_eq_self.mpr
        intro c hc
        simp only [decide_eq_true_eq]
        intro heq
        exact hy (by rw [hyx, ← heq]; exact List.mem_map_of_mem _ hc)
      rw [hsame, List.length_cons]
    · rw [List.filter_cons_of_pos (by simp [hyx])]
      have hx' : x ∈ t := by
        rcases List.mem_cons.mp hx with h | h
        · exact absurd (congrArg Card.id h.symm) hyx
        · exact h
      have := ih hn hx'
      simp only [List.length_cons]
      omega

theorem available_ids_nodup {p : List Card} {s : Session}
    (h : (p.map (fun c => c.id)).Nodup) :
    ((available p s).map (fun c => c.id)).Nodup :=
  h.sublist ((List.filter_sublist p).map (fun c => c.id))

theorem drawSeq_nil (p : List Card) (s : Session) : drawSeq p [] s = ([], s) := rfl

theorem drawSeq_cons (p : List Card) (r : Nat) (rs : List Nat) (s : Session) :
    drawSeq p (r :: rs) s =
      ((pickCard r p s).1 :: (drawSeq p rs (pickCard r p s).2).1,
        (drawSeq p rs (pickCard r p s).2).2) := rfl

theorem drawSeq_complete (p : List Card) (hn : (p.map (fun c => c.id)).Nodup) :
    ∀ (rs : List Nat) (s : Session), rs.length = (available p s).length →
    ∃ cs : List Card,
      (drawSeq p rs s).1 = cs.map some ∧
      (cs.map (fun c => c.id)).Nodup ∧
      (∀ c ∈ cs, c ∈ available p s) ∧
      (available p (drawSeq p rs s).2).length = 0 ∧
      (drawSeq p rs s).2.hasCompleted = s.hasCompleted := by
  intro rs
  induction rs with
  | nil =>
    intro s hlen
    rw [List.length_nil] at hlen
    exact ⟨[], rfl, List.nodup_nil, by simp,
      by show (available p s).length = 0; omega, rfl⟩
  | cons r rs ih =>
    intro s hlen
    rw [List.length_cons] at hlen
    have hpos : ¬(available p s).length = 0 := by omega
    have hpick := pickCard_pos r p s hpos
    have hfst : (pickCard r p s).1 =
        some ((available p s).get
          ⟨r % (available p s).length, Nat.mod_lt r (Nat.pos_of_ne_zero hpos)⟩) := by
      rw [hpick]
    have hsnd : (pickCard r p s).2 =
        { s with
            card := some ((available p s).get
              ⟨r % (available p s).length, Nat.mod_lt r (Nat.pos_of_ne_zero hpos)⟩)
            showGuide := false
            playedIds := ((available p s).get
              ⟨r % (available p s).length, Nat.mod_lt r (Nat.pos_of_ne_zero hpos)⟩).id ::
                s.playedIds } := by
      rw [hpick]
    have hmem : (available p s).get
        ⟨r % (available p s).length, Nat.mod_lt r (Nat.pos_of_ne_zero hpos)⟩ ∈
        available p s := List.get_mem _ _ _
    have hav1 : available p (pickCard r p s).2 =
        (available p s).filter (fun c => decide (c.id ≠
          ((available p s).get
            ⟨r % (available p s).length, Nat.mod_lt r (Nat.pos_of_ne_zero hpos)⟩).id)) := by
      apply available_cons_played p s _ _
      rw [hsnd]
    have hlen1 : rs.length = (available p (pickCard r p s).2).length := by
      rw [hav1]
      have := length_filter_ne (available p s) _ (available_ids_nodup hn) hmem
      omega
    obtain ⟨cs, h1, h2, h3, h4, h5⟩ := ih (pickCard r p s).2 hlen1
    refine ⟨(available p s).get
        ⟨r % (available p s).length, Nat.mod_lt r (Nat.pos_of_ne_zero hpos)⟩ :: cs,
      ?_, ?_, ?_, ?_, ?_⟩
    · rw [drawSeq_cons, List.map_cons, hfst, h1]
    · rw [List.map_cons, List.nodup_cons]
      refine ⟨?_, h2⟩
      intro hmem2
      rcases List.mem_map.mp hmem2 with ⟨c, hc, hcid⟩
      have := h3 c hc
      rw [hav1] at this
      have := List.of_mem_filter this
      rw [hcid] at this
      simp at this
    · intro c hc
      rcases List.mem_cons.mp hc with h | h
      · rw [h]; exact hmem
      · have := h3 c h
        rw [hav1] at this
        exact List.mem_of_mem_filter this
    · rw [drawSeq_cons]
      exact h4
    · rw [drawSeq_cons]
      rw [h5, hsnd]

/-! ### Helper lemmas on the per-category counters -/

theorem foldl_bump_count (eff : List Card) (cat : String) :
    ∀ f : String → Nat,
      (eff.foldl (fun counts c => bump counts c.category) f) cat =
        f cat + (eff.filter (fun c => decide (c.category = cat))).length := by
  induction eff with
  | nil => intro f; simp
  | cons c t ih =>
    intro f
    rw [List.foldl_cons, ih]
    by_cases h : c.category = cat
    · subst h
      rw [List.filter_cons_of_pos (by simp)]
      rw [show bump f c.category c.category = f c.category + 1 from by simp [bump]]
      rw [List.length_cons]
      omega
    · rw [List.filter_cons_of_neg (by simp [h])]
      rw [show bump f c.category cat = f cat from if_neg (fun e => h e.symm)]

theorem foldl_bump_played_count (eff : List Card) (played : List String) (cat : String) :
    ∀ f : String → Nat,
      (eff.foldl (fun counts c => if c.id ∈ played then bump counts c.category else counts)
          f) cat =
        f cat + (eff.filter (fun c => decide (c.id ∈ played ∧ c.category = cat))).length := by
  induction eff with
  | nil => intro f; simp
  | cons c t ih =>
    intro f
    rw [List.foldl_cons]
    by_cases hp : c.id ∈ played
    · rw [if_pos hp, ih]
      by_cases h : c.category = cat
      · subst h
        rw [List.filter_cons_of_pos (by simp [hp])]
        rw [show bump f c.category c.category = f c.category + 1 from by simp [bump]]
        rw [List.length_cons]
        omega
      · rw [List.filter_cons_of_neg (by simp [h])]
        rw [show bump f c.category cat = f cat from if_neg (fun e => h e.symm)]
    · rw [if_neg hp, ih, List.filter_cons_of_neg (by simp [hp])]

theorem perCategoryTotals_eq (eff : List Card) (cat : String) :
    perCategoryTotals eff cat = (eff.filter (fun c => decide (c.category = cat))).length := by
  rw [perCategoryTotals, foldl_bump_count]
  omega

theorem perCategoryPlayed_eq (eff : List Card) (played : List String) (cat : String) :
    perCategoryPlayed eff played cat =
      (eff.filter (fun c => decide (c.id ∈ played ∧ c.category = cat))).length := by
  rw [perCategoryPlayed, foldl_bump_played_count]
  omega

theorem filter_and_length_le (eff : List Card) (played : List String) (cat : String) :
    (eff.filter (fun c => decide (c.id ∈ played ∧ c.category = cat))).length ≤
      (eff.filter (fun c => decide (c.category = cat))).length := by
  induction eff with
  | nil => simp
  | cons c t ih =>
    by_cases h : c.category = cat
    · by_cases hp : c.id ∈ played
      · rw [List.filter_cons_of_pos (by simp [h, hp]), List.filter_cons_of_pos (by simp [h])]
        simp only [List.length_cons]
        omega
      · rw [List.filter_cons_of_neg (by simp [hp]), List.filter_cons_of_pos (by simp [h])]
        simp only [List.length_cons]
        omega
    · rw [List.filter_cons_of_neg (by simp [h]), List.filter_cons_of_neg (by simp [h])]
      exact ih

theorem filter_and_eq_of_all (eff : List Card) (played : List String) (cat : String)
    (h : ∀ c ∈ eff, c.category = cat → c.id ∈ played) :
    eff.filter (fun c => decide (c.id ∈ played ∧ c.category = cat)) =
      eff.filter (fun c => decide (c.category = cat)) := by
  apply List.filter_congr
  intro c hc
  by_cases hcat : c.category = cat
  · simp [hcat, h c hc hcat]
  · simp [hcat]

theorem drawSeq_completed_mono (p : List Card) :
    ∀ (rs : List Nat) (s : Session), s.hasCompleted = true →
      (drawSeq p rs s).2.hasCompleted = true := by
  intro rs
  induction rs with
  | nil => intro s h; exact h
  | cons r rs ih =>
    intro s h
    show (drawSeq p rs (pickCard r p s).2).2.hasCompleted = true
    apply ih
    by_cases hl : (available p s).length = 0
    · rw [pickCard_empty r p s hl]
    · rw [pickCard_pos r p s hl]
      exact h

theorem drawSeq_length (p : List Card) :
    ∀ (rs : List Nat) (s : Session), (drawSeq p rs s).1.length = rs.length := by
  intro rs
  induction rs with
  | nil => intro s; rfl
  | cons r rs ih =>
    intro s
    show ((pickCard r p s).1 :: (drawSeq p rs (pickCard r p s).2).1).length = rs.length + 1
    rw [List.length_cons, ih]

theorem pickCard_fst_pos (r : Nat) (p : List Card) (s : Session)
    (h : ¬(available p s).length = 0) :
    (pickCard r p s).1 =
      some ((available p s).get
        ⟨r % (available p s).length, Nat.mod_lt r (Nat.pos_of_ne_zero h)⟩) := by
  rw [pickCard_pos r p s h]

/-! ### The claims -/

/-- C1: from a pool whose ids are pairwise distinct, a sequence of `pickCard`
calls without an intervening `resetDeck`, started on the fresh session,
returns pairwise-distinct cards of the pool: with one random input per card of
the pool, every draw succeeds, the drawn cards are distinct and exactly as many
as the pool has, and any further draw returns no card and reports exhaustion. -/
theorem draw_exhaustion_spec (p : List Card) (rs : List Nat)
    (hnodup : (p.map (fun c => c.id)).Nodup) (hlen : rs.length = p.length) :
    ∃ cs : List Card,
      (drawSeq p rs initSession).1 = cs.map some ∧
      cs.Nodup ∧
      (∀ c ∈ cs, c ∈ p) ∧
      cs.length = p.length ∧
      (∀ r : Nat,
        (pickCard r p (drawSeq p rs initSession).2).1 = none ∧
        (pickCard r p (drawSeq p rs initSession).2).2.hasCompleted = true) := by
  have hlen' : rs.length = (available p initSession).length := by
    rw [available_initSession]
    exact hlen
  obtain ⟨cs, h1, h2, h3, h4, h5⟩ := drawSeq_complete p hnodup rs initSession hlen'
  rw [available_initSession] at h3
  refine ⟨cs, h1, h2.of_map, h3, ?_, ?_⟩
  · have := drawSeq_length p rs initSession
    rw [h1, List.length_map] at this
    rw [this, hlen]
  · intro r
    rw [pickCard_empty r p _ h4]
    exact ⟨rfl, rfl⟩

/-- C1 witness: a concrete two-card pool with distinct ids and two draws. -/
theorem draw_exhaustion_spec_witness :
    ((([sampleInfo, sampleDilemme].map (fun c => c.id)).Nodup ∧
      ([0, 0] : List Nat).length = [sampleInfo, sampleDilemme].length) ∧
    ∃ cs : List Card,
      (drawSeq [sampleInfo, sampleDilemme] [0, 0] initSession).1 = cs.map some ∧
      cs.Nodup ∧
      (∀ c ∈ cs, c ∈ [sampleInfo, sampleDilemme]) ∧
      cs.length = [sampleInfo, sampleDilemme].length ∧
      (∀ r : Nat,
        (pickCard r [sampleInfo, sampleDilemme]
          (drawSeq [sampleInfo, sampleDilemme] [0, 0] initSession).2).1 = none ∧
        (pickCard r [sampleInfo, sampleDilemme]
          (drawSeq [sampleInfo, sampleDilemme] [0, 0] initSession).2).2.hasCompleted =
          true)) :=
  ⟨⟨by decide, rfl⟩,
    draw_exhaustion_spec [sampleInfo, sampleDilemme] [0, 0] (by decide) rfl⟩

/-- C2: `pickCard` computes `available` as the pool minus the already-played
ids; on empty `available` it only sets `hasCompleted` (returning no card,
leaving the shown card as it was); otherwise it returns the element of
`available` selected by the random index, shows it, hides the guide and
inserts its id into the played set — and each index of `available` is the one
selected for exactly its residue class of the random input, so a uniformly
distributed random input selects every element equally likely. -/
theorem pickCard_spec (r : Nat) (p : List Card) (s : Session) :
    (∀ c, c ∈ available p s ↔ c ∈ p ∧ c.id ∉ s.playedIds) ∧
    ((available p s).length = 0 →
      pickCard r p s = (none, { s with hasCompleted := true })) ∧
    ((available p s).length ≠ 0 →
      ∃ next, (available p s).get? (r % (available p s).length) = some next ∧
        next ∈ available p s ∧
        pickCard r p s =
          (some next,
            { s with
                card := some next
                showGuide := false
                playedIds := next.id :: s.playedIds })) ∧
    (∀ i, i < (available p s).length → (pickCard i p s).1 = (available p s).get? i) := by
  refine ⟨fun c => mem_available, pickCard_empty r p s, ?_, ?_⟩
  · intro h
    refine ⟨(available p s).get
      ⟨r % (available p s).length, Nat.mod_lt r (Nat.pos_of_ne_zero h)⟩,
      List.get?_eq_get _, List.get_mem _ _ _, pickCard_pos r p s h⟩
  · intro i hi
    have h0 : ¬(available p s).length = 0 := by omega
    have hfin : (⟨i % (available p s).length, Nat.mod_lt i (Nat.pos_of_ne_zero h0)⟩ :
        Fin (available p s).length) = ⟨i, hi⟩ := Fin.ext (Nat.mod_eq_of_lt hi)
    rw [pickCard_fst_pos i p s h0, List.get?_eq_get hi]
    exact congrArg (fun fi => some ((available p s).get fi)) hfin

/-- C2 witness: drawing from a fresh one-card pool. -/
theorem pickCard_spec_witness :
    (available [sampleInfo] initSession).length ≠ 0 ∧
    (∃ next, (available [sampleInfo] initSession).get?
        (0 % (available [sampleInfo] initSession).length) = some next ∧
      next ∈ available [sampleInfo] initSession ∧
      pickCard 0 [sampleInfo] initSession =
        (some next,
          { initSession with
              card := some next
              showGuide := false
              playedIds := next.id :: initSession.playedIds })) :=
  ⟨by decide, (pickCard_spec 0 [sampleInfo] initSession).2.2.1 (by decide)⟩

/-- C3: a mode change, a selected-categories change and a category toggle all
reset the session: played ids cleared, current card cleared, exhaustion flag
cleared — for an arbitrary new category list, in particular one of the same
cardinality as the old. -/
theorem session_reset_spec (st : AppState) (m : Mode) (cats : List String)
    (cat : String) :
    (m ≠ st.mode →
      (setMode m st).session.playedIds = [] ∧
      (setMode m st).session.card = none ∧
      (setMode m st).session.hasCompleted = false) ∧
    ((setSelectedCategories cats st).session.playedIds = [] ∧
      (setSelectedCategories cats st).session.card = none ∧
      (setSelectedCategories cats st).session.hasCompleted = false) ∧
    ((toggleCategory cat st).session.playedIds = [] ∧
      (toggleCategory cat st).session.card = none ∧
      (toggleCategory cat st).session.hasCompleted = false) := by
  refine ⟨?_, ⟨rfl, rfl, rfl⟩, ⟨rfl, rfl, rfl⟩⟩
  intro h
  rw [setMode, if_neg h]
  exact ⟨rfl, rfl, rfl⟩

/-- C3 witness: switching from auto mode to info mode. -/
theorem session_reset_spec_witness :
    Mode.info ≠ (AppState.mk Mode.auto [] initSession).mode ∧
    ((setMode Mode.info (AppState.mk Mode.auto [] initSession)).session.playedIds = [] ∧
      (setMode Mode.info (AppState.mk Mode.auto [] initSession)).session.card = none ∧
      (setMode Mode.info
        (AppState.mk Mode.auto [] initSession)).session.hasCompleted = false) :=
  ⟨by decide,
    (session_reset_spec (AppState.mk Mode.auto [] initSession) Mode.info [] "A").1
      (by decide)⟩

/-- C4: a row whose trimmed type is empty is skipped, a row with any other
type than the exact strings `"info"` and `"dilemme"` contributes no card
either (and the parser, a total function, raises no error), and exactly those
two type values produce cards — every parsed card carries one of them. -/
theorem parse_skip_spec (i : Nat) (row : Row) (rest rows : List Row) :
    (rowType row = "" → parseRowsAux i (row :: rest) = parseRowsAux (i + 1) rest) ∧
    (rowType row ≠ "info" → rowType row ≠ "dilemme" →
      parseRowsAux i (row :: rest) = parseRowsAux (i + 1) rest) ∧
    (rowType row = "info" →
      parseRowsAux i (row :: rest) =
        (baseCard i row :: (parseRowsAux (i + 1) rest).1, (parseRowsAux (i + 1) rest).2)) ∧
    (rowType row = "dilemme" →
      parseRowsAux i (row :: rest) =
        ((parseRowsAux (i + 1) rest).1, baseCard i row :: (parseRowsAux (i + 1) rest).2)) ∧
    (∀ c ∈ (parseRowsAux i rows).1, c.type = "info") ∧
    (∀ c ∈ (parseRowsAux i rows).2, c.type = "dilemme") := by
  refine ⟨?_, parseRowsAux_skip i row rest, parseRowsAux_info i row rest,
    parseRowsAux_dilemme i row rest, (parse_types i rows).1, (parse_types i rows).2⟩
  intro h0
  exact parseRowsAux_skip i row rest (by rw [h0]; decide) (by rw [h0]; decide)

/-- C4 witness: a row with the unrecognized type `"autre"` is dropped. -/
theorem parse_skip_spec_witness :
    rowType (Row.mk (some "autre") none none none none none) ≠ "info" ∧
    parseRowsAux 0 [Row.mk (some "autre") none none none none none] =
      parseRowsAux 1 [] :=
  ⟨by decide,
    (parse_skip_spec 0 (Row.mk (some "autre") none none none none none) [] []).2.1
      (by decide) (by decide)⟩

/-- C5: every parsed card's id is the template `` `${type}-${i}` `` applied to
its trimmed type and the zero-based position of its source row in the raw
sequence (skipped rows included in the count), and no two cards of one parse
share an id. -/
theorem parse_ids_spec (rows : List Row) :
    (∀ c ∈ (parseRows rows).1 ++ (parseRows rows).2,
      ∃ k row, rows.get? k = some row ∧ rowType row = c.type ∧
        c.id = mkId c.type k) ∧
    (((parseRows rows).1 ++ (parseRows rows).2).map (fun c => c.id)).Nodup := by
  constructor
  · intro c hc
    rcases List.mem_append.mp hc with h | h
    · obtain ⟨k, row, hget, hty, hc'⟩ := (parse_mem 0 rows).1 c h
      subst hc'
      exact ⟨k, row, hget, by simp [baseCard], by simp [baseCard, mkId]⟩
    · obtain ⟨k, row, hget, hty, hc'⟩ := (parse_mem 0 rows).2 c h
      subst hc'
      exact ⟨k, row, hget, by simp [baseCard], by simp [baseCard, mkId]⟩
  · exact (parse_ids_nodup 0 rows).2.2

/-- C5 witness: a parse of one info row, whose card sits at position 0. -/
theorem parse_ids_spec_witness :
    (baseCard 0 (Row.mk (some "info") (some "A") none none none none) ∈
      (parseRows [Row.mk (some "info") (some "A") none none none none]).1 ++
        (parseRows [Row.mk (some "info") (some "A") none none none none]).2) ∧
    ∃ k row, [Row.mk (some "info") (some "A") none none none none].get? k = some row ∧
      rowType row = (baseCard 0 (Row.mk (some "info") (some "A") none none none none)).type ∧
      (baseCard 0 (Row.mk (some "info") (some "A") none none none none)).id =
        mkId (baseCard 0 (Row.mk (some "info") (some "A") none none none none)).type k := by
  have hmem : baseCard 0 (Row.mk (some "info") (some "A") none none none none) ∈
      (parseRows [Row.mk (some "info") (some "A") none none none none]).1 ++
        (parseRows [Row.mk (some "info") (some "A") none none none none]).2 := by
    rw [parseRows, parseRowsAux_info 0 _ [] (by decide)]
    simp
  exact ⟨hmem,
    (parse_ids_spec [Row.mk (some "info") (some "A") none none none none]).1 _ hmem⟩

/-- C6: with no selected category the pool is the whole effective list; with a
non-empty selection it is the filter keeping exactly the cards whose category
is selected; and in every case the pool is a subsequence of the effective
list, in the same relative order. -/
theorem pool_spec (eff : List Card) (sel : List String) :
    (sel = [] → pool eff sel = eff) ∧
    (sel ≠ [] → pool eff sel = eff.filter (fun c => decide (c.category ∈ sel))) ∧
    List.Sublist (pool eff sel) eff ∧
    (∀ c, c ∈ pool eff sel ↔ c ∈ eff ∧ (sel = [] ∨ c.category ∈ sel)) := by
  refine ⟨?_, ?_, ?_, ?_⟩
  · intro h
    simp [pool, h]
  · intro h
    rw [pool, if_neg (by simpa using h)]
  · by_cases h : sel = []
    · rw [pool, if_pos (by simp [h])]
    · rw [pool, if_neg (by simpa using h)]
      exact List.filter_sublist _
  · intro c
    by_cases h : sel = []
    · subst h
      simp [pool]
    · rw [pool, if_neg (by simpa using h)]
      simp [List.mem_filter, h]

/-- C6 witness: the empty selection keeps everything, the selection `{"A"}`
keeps exactly the category-A card. -/
theorem pool_spec_witness :
    pool [sampleInfo] ([] : List String) = [sampleInfo] ∧
    pool [sampleInfo, sampleDilemme] ["A"] =
      [sampleInfo, sampleDilemme].filter
        (fun c => decide (c.category ∈ (["A"] : List String))) :=
  ⟨(pool_spec [sampleInfo] []).1 rfl,
    (pool_spec [sampleInfo, sampleDilemme] ["A"]).2.1 (by decide)⟩

/-- C7: the effective list is info-then-dilemme concatenation in auto mode and
the single corresponding list otherwise, and the derived category list is the
deduplicated set of categories appearing in the two lists, sorted ascending. -/
theorem effective_categories_spec (cards : Cards) :
    effective cards Mode.auto = cards.info ++ cards.dilemme ∧
    effective cards Mode.info = cards.info ∧
    effective cards Mode.dilemme = cards.dilemme ∧
    List.Sorted (· ≤ ·) (allCategories cards.info cards.dilemme) ∧
    (allCategories cards.info cards.dilemme).Nodup ∧
    (∀ s, s ∈ allCategories cards.info cards.dilemme ↔
      s ∈ (cards.info ++ cards.dilemme).map (fun c => c.category)) := by
  refine ⟨rfl, rfl, rfl, ?_, ?_, ?_⟩
  · rw [allCategories]
    exact List.sorted_mergeSort' _
  · rw [allCategories]
    exact ((List.mergeSort_perm _ _).nodup_iff).mpr (List.nodup_dedup _)
  · intro s
    rw [allCategories, List.Perm.mem_iff (List.mergeSort_perm _ _), List.mem_dedup]

/-- C8: for every catalog, mode, played set and category, the per-category
played count never exceeds the per-category total, both computed over the
full effective list; equality holds once every effective card of the category
has been played. -/
theorem counters_spec (cards : Cards) (mode : Mode) (played : List String)
    (cat : String) :
    perCategoryPlayed (effective cards mode) played cat ≤
      perCategoryTotals (effective cards mode) cat ∧
    ((∀ c ∈ effective cards mode, c.category = cat → c.id ∈ played) →
      perCategoryPlayed (effective cards mode) played cat =
        perCategoryTotals (effective cards mode) cat) := by
  constructor
  · rw [perCategoryPlayed_eq, perCategoryTotals_eq]
    exact filter_and_length_le _ _ _
  · intro h
    rw [perCategoryPlayed_eq, perCategoryTotals_eq, filter_and_eq_of_all _ _ _ h]

/-- C8 witness: with both sample cards played, the category-A counters agree. -/
theorem counters_spec_witness :
    (∀ c ∈ effective (Cards.mk [sampleInfo] [sampleDilemme]) Mode.auto,
      c.category = "A" → c.id ∈ ["info-0", "dilemme-1"]) ∧
    perCategoryPlayed (effective (Cards.mk [sampleInfo] [sampleDilemme]) Mode.auto)
        ["info-0", "dilemme-1"] "A" =
      perCategoryTotals (effective (Cards.mk [sampleInfo] [sampleDilemme]) Mode.auto)
        "A" :=
  ⟨by decide,
    (counters_spec (Cards.mk [sampleInfo] [sampleDilemme]) Mode.auto
      ["info-0", "dilemme-1"] "A").2 (by decide)⟩

/-- C9: a parsed card's category is the trimmed source category, with the
sentinel `"Autre"` replacing a missing, empty or all-whitespace one; the
optional fields question, guide, source and the prompt column default to the
empty string when the column is missing. -/
theorem parse_defaults_spec (rows : List Row) :
    ∀ c ∈ (parseRows rows).1 ++ (parseRows rows).2,
      ∃ k row, rows.get? k = some row ∧ c = baseCard k row ∧
        (row.category = none → c.category = "Autre") ∧
        (∀ s, row.category = some s → jsTrim s = "" → c.category = "Autre") ∧
        (∀ s, row.category = some s → jsTrim s ≠ "" → c.category = jsTrim s) ∧
        (row.question = none → c.question = "") ∧
        (row.guide = none → c.guide = "") ∧
        (row.source = none → c.source = "") ∧
        (row.infoSituation = none → c.prompt = "") := by
  intro c hc
  have main : ∀ k row, rows.get? k = some row → c = baseCard (0 + k) row →
      ∃ k' row', rows.get? k' = some row' ∧ c = baseCard k' row' ∧
        (row'.category = none → c.category = "Autre") ∧
        (∀ s, row'.category = some s → jsTrim s = "" → c.category = "Autre") ∧
        (∀ s, row'.category = some s → jsTrim s ≠ "" → c.category = jsTrim s) ∧
        (row'.question = none → c.question = "") ∧
        (row'.guide = none → c.guide = "") ∧
        (row'.source = none → c.source = "") ∧
        (row'.infoSituation = none → c.prompt = "") := by
    intro k row hget hc'
    subst hc'
    refine ⟨k, row, hget, by rw [Nat.zero_add], ?_, ?_, ?_, ?_, ?_, ?_, ?_⟩
    · intro hn
      simp [baseCard, categoryOf, hn]
    · intro s hs htrim
      simp [baseCard, categoryOf, hs, htrim]
    · intro s hs htrim
      simp [baseCard, categoryOf, hs, htrim]
    · intro hq
      simp [baseCard, hq]
    · intro hg
      simp [baseCard, hg]
    · intro hsrc
      simp [baseCard, hsrc]
    · intro his
      simp [baseCard, his]
  rcases List.mem_append.mp hc with h | h
  · obtain ⟨k, row, hget, _hty, hc'⟩ := (parse_mem 0 rows).1 c h
    exact main k row hget hc'
  · obtain ⟨k, row, hget, _hty, hc'⟩ := (parse_mem 0 rows).2 c h
    exact main k row hget hc'

/-- C9 witness: one info row with an all-whitespace category and missing
optional columns. -/
theorem parse_defaults_spec_witness :
    (baseCard 0 (Row.mk (some "info") (some "  ") none none none none) ∈
      (parseRows [Row.mk (some "info") (some "  ") none none none none]).1 ++
        (parseRows [Row.mk (some "info") (some "  ") none none none none]).2) ∧
    ∃ k row,
      [Row.mk (some "info") (some "  ") none none none none].get? k = some row ∧
      baseCard 0 (Row.mk (some "info") (some "  ") none none none none) =
        baseCard k row ∧
      (row.category = none →
        (baseCard 0 (Row.mk (some "info") (some "  ") none none none none)).category =
          "Autre") ∧
      (∀ s, row.category = some s → jsTrim s = "" →
        (baseCard 0 (Row.mk (some "info") (some "  ") none none none none)).category =
          "Autre") ∧
      (∀ s, row.category = some s → jsTrim s ≠ "" →
        (baseCard 0 (Row.mk (some "info") (some "  ") none none none none)).category =
          jsTrim s) ∧
      (row.question = none →
        (baseCard 0 (Row.mk (some "info") (some "  ") none none none none)).question =
          "") ∧
      (row.guide = none →
        (baseCard 0 (Row.mk (some "info") (some "  ") none none none none)).guide = "") ∧
      (row.source = none →
        (baseCard 0 (Row.mk (some "info") (some "  ") none none none none)).source =
          "") ∧
      (row.infoSituation = none →
        (baseCard 0 (Row.mk (some "info") (some "  ") none none none none)).prompt =
          "") := by
  have hmem : baseCard 0 (Row.mk (some "info") (some "  ") none none none none) ∈
      (parseRows [Row.mk (some "info") (some "  ") none none none none]).1 ++
        (parseRows [Row.mk (some "info") (some "  ") none none none none]).2 := by
    rw [parseRows, parseRowsAux_info 0 _ [] (by decide)]
    simp
  exact ⟨hmem,
    parse_defaults_spec [Row.mk (some "info") (some "  ") none none none none] _ hmem⟩

/-- C10: when a draw finds no available card only the exhaustion flag changes
(played set, shown card and guide flag untouched); the flag after a draw is
true exactly when it was already true or the draw found nothing, so no
sequence of draws turns it from true back to false; only `resetDeck` clears
it. -/
theorem exhaustion_frame_spec (p : List Card) (r : Nat) (s : Session) :
    ((available p s).length = 0 →
      pickCard r p s = (none, { s with hasCompleted := true })) ∧
    ((pickCard r p s).2.hasCompleted = true ↔
      (s.hasCompleted = true ∨ (available p s).length = 0)) ∧
    (∀ rs : List Nat, s.hasCompleted = true →
      (drawSeq p rs s).2.hasCompleted = true) ∧
    (resetDeck s).hasCompleted = false := by
  refine ⟨pickCard_empty r p s, ?_, fun rs => drawSeq_completed_mono p rs s, rfl⟩
  by_cases h : (available p s).length = 0
  · rw [pickCard_empty r p s h]
    simp [h]
  · rw [pickCard_pos r p s h]
    simp [h]

/-- C10 witness: drawing from an empty pool. -/
theorem exhaustion_frame_spec_witness :
    (available ([] : List Card) initSession).length = 0 ∧
    pickCard 0 [] initSession = (none, { initSession with hasCompleted := true }) ∧
    (drawSeq ([] : List Card) [0] (Session.mk none false [] true)).2.hasCompleted =
      true :=
  ⟨by decide, (exhaustion_frame_spec [] 0 initSession).1 (by decide),
    (exhaustion_frame_spec [] 0 (Session.mk none false [] true)).2.2.1 [0] (by decide)⟩

end RLDM
